import Mathlib

/-!
Shallow embedding of the collaborative puzzle session engine
(`25FA_Canvas`): the server-side Session Store message handlers
(WebSocket server, `MOVE_PIECE` / `MERGE_GROUP` / broadcasts) and the
client-side Zustand store (`initSocket` handlers `PIECE_MOVED`,
`GROUP_MERGED`, and the actions `setPuzzleRegions`, `dragMove`,
`dragEnd`).

Modelling conventions:
* JS `number` values (positions, region centres, seeds) are modelled as
  exact rationals `ℚ`; the only arithmetic the embedded code performs is
  addition, subtraction, multiplication and comparison, which the
  rationals reproduce faithfully.
* A JS `Record<string, PieceState>` keyed by piece id is modelled as a
  `List PieceState` in `Object.values` enumeration order; keyed lookup
  `rec[id]` becomes `List.find? (·.id == id)` and key insertion appends.
* `Math.sqrt d < SNAP_DISTANCE` is kept in the source's form where the
  snap theorems are stated (via `Real.sqrt`), and the executable
  embedding compares `d < SNAP_DISTANCE ^ 2`, which is equivalent for
  the non-negative `d` the code produces.
* `Math.sin` (used only to scatter spawn positions) is an opaque
  numeric primitive: the scatter code is parameterised by an arbitrary
  function `sinF : ℚ → ℚ` standing for it.
-/

namespace Canvas

/-- A 3-component position vector, modelling the `[number, number, number]`
position arrays of the source (`position[0]`, `position[1]`, `position[2]`). -/
structure Vec3 where
  x : ℚ
  y : ℚ
  z : ℚ
deriving DecidableEq, Repr

/-- Componentwise addition, as in the source's
`[p.position[0] + off[0], p.position[1] + off[1], p.position[2] + off[2]]`. -/
def Vec3.add (a b : Vec3) : Vec3 := ⟨a.x + b.x, a.y + b.y, a.z + b.z⟩

/-- `PieceState` (src types / server store): piece id, current position,
current group id, solved flag. -/
structure PieceState where
  id : String
  position : Vec3
  groupId : String
  isSolved : Bool
deriving DecidableEq, Repr

/-- `Region` as consumed by the store: a piece's segmentation descriptor with
its id and centroid `center.x` / `center.y` (grid space). -/
structure Region where
  id : String
  centerX : ℚ
  centerY : ℚ
deriving DecidableEq, Repr

/-- The number of distinct group ids, `new Set(Object.values(states).map(p => p.groupId)).size`. -/
def distinctGroups (ps : List PieceState) : ℕ :=
  (ps.map PieceState.groupId).toFinset.card

/-- Server `MERGE_GROUP` handler core (part_005 lines 120-130): every piece
whose `groupId` equals `sourceGroupId` is reassigned to `targetGroupId` and
translated by `alignOffset`; all other pieces are untouched. The client
`GROUP_MERGED` relabel loop (part_006 lines 102-113) performs the identical
per-piece transform. -/
def mergeGroup (sourceGroupId targetGroupId : String) (alignOffset : Vec3)
    (ps : List PieceState) : List PieceState :=
  ps.map (fun p =>
    if p.groupId = sourceGroupId then
      { p with groupId := targetGroupId, position := p.position.add alignOffset }
    else p)

/-- Server `MOVE_PIECE` handler (part_005 lines 95-99): a missing piece id is
lazily created with `groupId = pieceId` and `isSolved = false`; an existing
piece only has its position overwritten. -/
def movePiece (pieceId : String) (position : Vec3) (ps : List PieceState) :
    List PieceState :=
  if ps.any (fun p => p.id == pieceId) then
    ps.map (fun p => if p.id = pieceId then { p with position := position } else p)
  else
    ps ++ [{ id := pieceId, position := position, groupId := pieceId, isSolved := false }]

/-- A sequence of `MERGE_GROUP` intents applied in order by the Session Store. -/
def applyMerges (ms : List (String × String × Vec3)) (ps : List PieceState) :
    List PieceState :=
  ms.foldl (fun acc m => mergeGroup m.1 m.2.1 m.2.2 acc) ps

/-- Snap-to-floor completion transition (client `GROUP_MERGED` lines 115-122
and `GAME_COMPLETED` lines 127-136): every piece's `isSolved` is set and its
vertical coordinate `position[1]` is set to the floor value `0`. -/
def snapComplete (ps : List PieceState) : List PieceState :=
  ps.map (fun p => { p with isSolved := true, position := { p.position with y := 0 } })

/-- Client `GROUP_MERGED` handler (part_006 lines 98-126): replay the relabel
and translate transform, then, if the resulting state has exactly one distinct
group, run the completion snap over every piece. -/
def clientGroupMerged (sourceGroupId targetGroupId : String) (alignOffset : Vec3)
    (ps : List PieceState) : List PieceState :=
  let merged := mergeGroup sourceGroupId targetGroupId alignOffset ps
  if distinctGroups merged = 1 then snapComplete merged else merged

/-- Client `PIECE_MOVED` handler (part_006 lines 75-96): the delta is dropped
when `state.draggedPieceId === msg.pieceId`; otherwise, when a piece with the
given id exists locally, its position and group id are overwritten (the loop
over group members at lines 81-85 has an empty body and is omitted). -/
def clientPieceMoved (draggedPieceId : Option String) (pieceId : String)
    (position : Vec3) (groupId : String) (ps : List PieceState) : List PieceState :=
  if draggedPieceId = some pieceId then ps
  else
    ps.map (fun p =>
      if p.id = pieceId then { p with position := position, groupId := groupId } else p)

/-- A connected WebSocket client as the broadcast loops see it: identity plus
`readyState`. -/
structure Conn where
  cid : ℕ
  readyState : ℕ
deriving DecidableEq, Repr

/-- `WebSocket.OPEN` (part_005 lines 4-7). -/
def WebSocketOPEN : ℕ := 1

/-- Recipients of the `PIECE_MOVED` broadcast (part_005 lines 101-111):
every open connection in the session other than the sender `ws`. -/
def moveBroadcastTargets (players : List Conn) (sender : Conn) : List Conn :=
  players.filter (fun c => c != sender && c.readyState == WebSocketOPEN)

/-- Recipients of the `GROUP_MERGED` broadcast (part_005 lines 132-142):
every open connection in the session, with no sender exclusion. -/
def mergeBroadcastTargets (players : List Conn) (sender : Conn) : List Conn :=
  players.filter (fun c => c.readyState == WebSocketOPEN)

/-- `SNAP_DISTANCE` (part_006 line 32). -/
def SNAP_DISTANCE : ℚ := 4

/-- The squared snap error of a mover/target pair (part_006 lines 235-244):
squared Euclidean distance between the current XZ offset of the two pieces and
the ideal offset of their region centroids. The code compares
`Math.sqrt(snapErrSq) < SNAP_DISTANCE`, which for this non-negative quantity
is equivalent to `snapErrSq < SNAP_DISTANCE ^ 2`. -/
def snapErrSq (regionMover regionTarget : Region) (mover target : PieceState) : ℚ :=
  let idealDiffX := regionMover.centerX - regionTarget.centerX
  let idealDiffY := regionMover.centerY - regionTarget.centerY
  let currentDiffX := mover.position.x - target.position.x
  let currentDiffZ := mover.position.z - target.position.z
  (currentDiffX - idealDiffX) ^ 2 + (currentDiffZ - idealDiffY) ^ 2

/-- Whether a mover/target pair is flagged by the snap scan: both pieces must
have a region, and the snap error must be strictly below the threshold. -/
def pairQualifies (regions : List Region) (mover target : PieceState) : Bool :=
  match regions.find? (fun r => r.id == mover.id),
        regions.find? (fun r => r.id == target.id) with
  | some rm, some rt => decide (snapErrSq rm rt mover target < SNAP_DISTANCE ^ 2)
  | _, _ => false

/-- Inner loop of the snap scan (part_006 lines 231-250): walk the target
pieces in order, skip targets without a region, and return the first target
group whose pair with `mover` beats the threshold. -/
def findSnapInner (regions : List Region) (rm : Region) (mover : PieceState) :
    List PieceState → Option String
  | [] => none
  | target :: rest =>
    match regions.find? (fun r => r.id == target.id) with
    | none => findSnapInner regions rm mover rest
    | some rt =>
      if snapErrSq rm rt mover target < SNAP_DISTANCE ^ 2 then some target.groupId
      else findSnapInner regions rm mover rest

/-- Outer loop of the snap scan (part_006 lines 225-251): walk the mover
pieces in order, skip movers without a region, and stop at the first qualifying
pair. -/
def findSnapCandidate (regions : List Region) :
    List PieceState → List PieceState → Option String
  | [], _ => none
  | mover :: rest, targets =>
    match regions.find? (fun r => r.id == mover.id) with
    | none => findSnapCandidate regions rest targets
    | some rm =>
      match findSnapInner regions rm mover targets with
      | some g => some g
      | none => findSnapCandidate regions rest targets

/-- `dragMove` (part_006 lines 195-254), given the dragged group id
`activeGroupId = pieceStates[draggedPieceId].groupId`: translate every piece
of the dragged group by `delta`, then scan mover pieces against pieces of
other groups for the snap candidate of the gesture. Returns the new states and
the `snapCandidateGroupId` that is set. -/
def dragMove (regions : List Region) (activeGroupId : String) (delta : Vec3)
    (ps : List PieceState) : List PieceState × Option String :=
  let newStates := ps.map (fun p =>
    if p.groupId = activeGroupId then { p with position := p.position.add delta } else p)
  let movingPieces := newStates.filter (fun p => p.groupId == activeGroupId)
  let otherPieces := newStates.filter (fun p => !(p.groupId == activeGroupId))
  (newStates, findSnapCandidate regions movingPieces otherPieces)

/-- `dragEnd` merge branch (part_006 lines 260-325), given the alignment
offset `off` computed by the reference-pair loop at lines 265-290: relabel and
translate the dragged group onto the snap candidate group, then, if exactly
one distinct group remains, snap every piece that has a region to the floor
and mark it solved. -/
def dragEndApply (regions : List Region) (activeGroupId snapCandidateGroupId : String)
    (off : Vec3) (ps : List PieceState) : List PieceState :=
  let merged := mergeGroup activeGroupId snapCandidateGroupId off ps
  if distinctGroups merged = 1 then
    merged.map (fun p =>
      if regions.any (fun r => r.id == p.id) then
        { p with isSolved := true, position := { p.position with y := 0 } }
      else p)
  else merged

/-- `pseudoRandom` (part_006 lines 161-164), parameterised by the opaque
numeric primitive `sinF` standing for `Math.sin`:
`x = sin(seedValue + offset) * 10000; return x - floor(x)`. -/
def pseudoRandom (sinF : ℚ → ℚ) (seedVal offset : ℚ) : ℚ :=
  let x := sinF (seedVal + offset) * 10000
  x - (⌊x⌋ : ℚ)

/-- The scattered spawn position of the region at `index`
(part_006 lines 160-169): a function only of the scatter seed and the index. -/
def scatterPosition (sinF : ℚ → ℚ) (scatterSeed : List ℚ) (index : ℕ) : Vec3 :=
  let seedVal := scatterSeed.getD (index % scatterSeed.length) 0
  let sx := (pseudoRandom sinF seedVal 1 - 1 / 2) * 60
  let sy := 10 + pseudoRandom sinF seedVal 2 * 15
  let sz := (pseudoRandom sinF seedVal 3 - 1 / 2) * 60
  ⟨sx, sy, sz⟩

/-- `setPuzzleRegions` (part_006 lines 151-180): build the initial client
mirror, taking the server-supplied `PieceState` for a region when the server
record is non-empty and contains that region's id, and a scattered default
otherwise. -/
def setPuzzleRegions (sinF : ℚ → ℚ) (regions : List Region) (scatterSeed : List ℚ)
    (currentServerStates : List PieceState) : List PieceState :=
  let hasServerState := !currentServerStates.isEmpty
  regions.enum.map (fun ir =>
    match (if hasServerState then currentServerStates.find? (fun p => p.id == ir.2.id)
           else none) with
    | some st => st
    | none =>
      { id := ir.2.id, groupId := ir.2.id,
        position := scatterPosition sinF scatterSeed ir.1, isSolved := false })

/-- The group ids after a merge are the old group ids with `sourceGroupId`
collapsed into `targetGroupId`. -/
lemma map_groupId_mergeGroup (s t : String) (off : Vec3) (ps : List PieceState) :
    (mergeGroup s t off ps).map PieceState.groupId =
      (ps.map PieceState.groupId).map (fun g => if g = s then t else g) := by
  simp only [mergeGroup, List.map_map]
  refine List.map_congr_left fun p _ => ?_
  by_cases h : p.groupId = s <;> simp [h]

/-- The `Finset` of a mapped list is the image of the list's `Finset`. -/
lemma list_toFinset_map {α β : Type*} [DecidableEq α] [DecidableEq β]
    (f : α → β) (l : List α) : (l.map f).toFinset = l.toFinset.image f := by
  ext x
  simp

/-- Collapsing one element of a finite set into another element of the set
erases it. -/
lemma image_collapse {α : Type*} [DecidableEq α] (S : Finset α) (s t : α)
    (hs : s ∈ S) (ht : t ∈ S) (hst : s ≠ t) :
    S.image (fun g => if g = s then t else g) = S.erase s := by
  ext x
  simp only [Finset.mem_image, Finset.mem_erase]
  constructor
  · rintro ⟨a, ha, rfl⟩
    by_cases h : a = s
    · subst h
      simp [hst, Ne.symm hst, ht]
    · simp [h, ha]
  · rintro ⟨hxs, hxS⟩
    exact ⟨x, hxS, by simp [hxs]⟩

/-- Any single merge leaves the number of distinct groups no larger. -/
lemma distinctGroups_mergeGroup_le (s t : String) (off : Vec3) (ps : List PieceState) :
    distinctGroups (mergeGroup s t off ps) ≤ distinctGroups ps := by
  rw [distinctGroups, distinctGroups, map_groupId_mergeGroup, list_toFinset_map]
  exact Finset.card_image_le

/-- A merge whose source group is not represented leaves the state unchanged. -/
lemma mergeGroup_noop_of_no_source (s t : String) (off : Vec3) (ps : List PieceState)
    (h : ∀ p ∈ ps, p.groupId ≠ s) : mergeGroup s t off ps = ps := by
  rw [mergeGroup]
  conv_rhs => rw [← List.map_id ps]
  refine List.map_congr_left fun p hp => ?_
  simp [h p hp]

/-- A merge never changes any piece's solved flag. -/
lemma allSolved_mergeGroup (s t : String) (off : Vec3) (ps : List PieceState)
    (h : ∀ p ∈ ps, p.isSolved = true) :
    ∀ p ∈ mergeGroup s t off ps, p.isSolved = true := by
  intro p hp
  rw [mergeGroup] at hp
  obtain ⟨q, hq, rfl⟩ := List.mem_map.mp hp
  by_cases hg : q.groupId = s <;> simp [hg, h q hq]

/-- The completion snap does not change group ids. -/
lemma map_groupId_snapComplete (ps : List PieceState) :
    (snapComplete ps).map PieceState.groupId = ps.map PieceState.groupId := by
  rw [snapComplete, List.map_map]
  rfl

/-- The completion snap does not change the number of distinct groups. -/
lemma distinctGroups_snapComplete (ps : List PieceState) :
    distinctGroups (snapComplete ps) = distinctGroups ps := by
  rw [distinctGroups, distinctGroups, map_groupId_snapComplete]

/-- C1: a merge between two represented, distinct groups shrinks the number
of distinct group ids by exactly one, and any sequence of merges never
increases the number of distinct groups. -/
theorem mergeGroup_distinct_groups_decrease :
    (∀ (ps : List PieceState) (s t : String) (off : Vec3),
      (∃ p ∈ ps, p.groupId = s) → (∃ p ∈ ps, p.groupId = t) → s ≠ t →
        distinctGroups (mergeGroup s t off ps) + 1 = distinctGroups ps) ∧
    (∀ (ms : List (String × String × Vec3)) (ps : List PieceState),
      distinctGroups (applyMerges ms ps) ≤ distinctGroups ps) := by
  constructor
  · intro ps s t off hs ht hst
    obtain ⟨p, hp, hps⟩ := hs
    obtain ⟨q, hq, hqt⟩ := ht
    have hsS : s ∈ (ps.map PieceState.groupId).toFinset := by
      simp only [List.mem_toFinset, List.mem_map]
      exact ⟨p, hp, hps⟩
    have htS : t ∈ (ps.map PieceState.groupId).toFinset := by
      simp only [List.mem_toFinset, List.mem_map]
      exact ⟨q, hq, hqt⟩
    rw [distinctGroups, distinctGroups, map_groupId_mergeGroup, list_toFinset_map,
      image_collapse _ s t hsS htS hst]
    exact Finset.card_erase_add_one hsS
  · intro ms
    induction ms with
    | nil => intro ps; simp [applyMerges]
    | cons m ms ih =>
        intro ps
        calc distinctGroups (applyMerges (m :: ms) ps)
            ≤ distinctGroups (mergeGroup m.1 m.2.1 m.2.2 ps) := by
              simpa [applyMerges] using ih (mergeGroup m.1 m.2.1 m.2.2 ps)
          _ ≤ distinctGroups ps := distinctGroups_mergeGroup_le _ _ _ _

/-- Witness for C1 at a concrete two-piece, two-group state. -/
theorem mergeGroup_distinct_groups_decrease_witness :
    (∃ p ∈ [(⟨"a", ⟨0, 0, 0⟩, "a", false⟩ : PieceState), ⟨"b", ⟨2, 0, 0⟩, "b", false⟩],
        p.groupId = "a") ∧
    (∃ p ∈ [(⟨"a", ⟨0, 0, 0⟩, "a", false⟩ : PieceState), ⟨"b", ⟨2, 0, 0⟩, "b", false⟩],
        p.groupId = "b") ∧
    ("a" : String) ≠ "b" ∧
    distinctGroups (mergeGroup "a" "b" ⟨1, 0, 0⟩
      [⟨"a", ⟨0, 0, 0⟩, "a", false⟩, ⟨"b", ⟨2, 0, 0⟩, "b", false⟩]) + 1 =
      distinctGroups [(⟨"a", ⟨0, 0, 0⟩, "a", false⟩ : PieceState), ⟨"b", ⟨2, 0, 0⟩, "b", false⟩] :=
  ⟨by simp, by simp, by simp,
    mergeGroup_distinct_groups_decrease.1
      [⟨"a", ⟨0, 0, 0⟩, "a", false⟩, ⟨"b", ⟨2, 0, 0⟩, "b", false⟩] "a" "b" ⟨1, 0, 0⟩
      (by simp) (by simp) (by simp)⟩

/-- C2 counterexample: with `sourceGroupId = targetGroupId = "a"` and a
nonzero `alignOffset`, the merge is not a no-op — the single piece of group
`"a"` is translated from the origin to `(1, 0, 0)`. -/
theorem mergeSelf_counterexample :
    mergeGroup "a" "a" ⟨1, 0, 0⟩ [⟨"a", ⟨0, 0, 0⟩, "a", false⟩] ≠
        [⟨"a", ⟨0, 0, 0⟩, "a", false⟩] ∧
    (mergeGroup "a" "a" ⟨1, 0, 0⟩ [⟨"a", ⟨0, 0, 0⟩, "a", false⟩]).map
        PieceState.position = [⟨1, 0, 0⟩] := by
  refine ⟨?_, ?_⟩ <;> simp [mergeGroup, Vec3.add]

/-- C2 amended: `merge(g, g, off)` preserves every piece's group id and
solved flag, and is a no-op exactly in the degenerate cases — when no piece is
in group `g`, or when the offset is zero; a piece of group `g` is otherwise
translated by `off`. -/
theorem mergeSelf_amended :
    (∀ (g : String) (off : Vec3) (ps : List PieceState),
      (mergeGroup g g off ps).map PieceState.groupId = ps.map PieceState.groupId) ∧
    (∀ (g : String) (off : Vec3) (ps : List PieceState),
      (mergeGroup g g off ps).map PieceState.isSolved = ps.map PieceState.isSolved) ∧
    (∀ (g : String) (off : Vec3) (ps : List PieceState),
      (∀ p ∈ ps, p.groupId ≠ g) → mergeGroup g g off ps = ps) ∧
    (∀ (g : String) (ps : List PieceState), mergeGroup g g ⟨0, 0, 0⟩ ps = ps) ∧
    (∀ (g : String) (off : Vec3) (ps : List PieceState), ∀ p ∈ ps, p.groupId = g →
      ({ id := p.id, position := p.position.add off, groupId := g,
         isSolved := p.isSolved } : PieceState) ∈ mergeGroup g g off ps) := by
  refine ⟨?_, ?_, ?_, ?_, ?_⟩
  · intro g off ps
    simp only [mergeGroup, List.map_map]
    refine List.map_congr_left fun p _ => ?_
    by_cases h : p.groupId = g <;> simp [h]
  · intro g off ps
    simp only [mergeGroup, List.map_map]
    refine List.map_congr_left fun p _ => ?_
    by_cases h : p.groupId = g <;> simp [h]
  · intro g off ps h
    exact mergeGroup_noop_of_no_source g g off ps h
  · intro g ps
    rw [mergeGroup]
    conv_rhs => rw [← List.map_id ps]
    refine List.map_congr_left fun p _ => ?_
    obtain ⟨pid, ⟨px, py, pz⟩, pg, psol⟩ := p
    by_cases h : pg = g <;> simp_all [Vec3.add]
  · intro g off ps p hp hpg
    rw [mergeGroup]
    refine List.mem_map.mpr ⟨p, hp, ?_⟩
    obtain ⟨pid, ppos, pg, psol⟩ := p
    simp_all

/-- Witness for C2's amended theorem: the no-source case at a concrete state. -/
theorem mergeSelf_amended_witness :
    (∀ p ∈ [(⟨"b", ⟨3, 0, 0⟩, "b", false⟩ : PieceState)], p.groupId ≠ "a") ∧
    mergeGroup "a" "a" ⟨1, 0, 0⟩ [⟨"b", ⟨3, 0, 0⟩, "b", false⟩] =
      [⟨"b", ⟨3, 0, 0⟩, "b", false⟩] :=
  ⟨by simp, mergeSelf_amended.2.2.1 "a" ⟨1, 0, 0⟩ [⟨"b", ⟨3, 0, 0⟩, "b", false⟩] (by simp)⟩

/-- C3 counterexample: applying the same merge twice gives exactly the same
state — positions included — as applying it once, contradicting the claim
that the second application re-translates the reassigned pieces. -/
theorem mergeTwice_counterexample :
    mergeGroup "s" "t" ⟨1, 0, 0⟩ (mergeGroup "s" "t" ⟨1, 0, 0⟩
        [⟨"p1", ⟨0, 0, 0⟩, "s", false⟩, ⟨"p2", ⟨5, 0, 0⟩, "t", false⟩]) =
      mergeGroup "s" "t" ⟨1, 0, 0⟩
        [⟨"p1", ⟨0, 0, 0⟩, "s", false⟩, ⟨"p2", ⟨5, 0, 0⟩, "t", false⟩] ∧
    (mergeGroup "s" "t" ⟨1, 0, 0⟩ (mergeGroup "s" "t" ⟨1, 0, 0⟩
        [⟨"p1", ⟨0, 0, 0⟩, "s", false⟩, ⟨"p2", ⟨5, 0, 0⟩, "t", false⟩])).map
      PieceState.position = [⟨1, 0, 0⟩, ⟨5, 0, 0⟩] := by
  refine ⟨?_, ?_⟩ <;>
    simp [mergeGroup, Vec3.add, show ("t" : String) ≠ "s" by decide]

/-- C3 amended: for distinct source and target groups, the merge is fully
idempotent — group assignment AND positions: after the first application no
piece remains in the source group, so the second application is a complete
no-op. -/
theorem mergeGroup_fully_idempotent (ps : List PieceState) (s t : String)
    (off : Vec3) (hst : s ≠ t) :
    mergeGroup s t off (mergeGroup s t off ps) = mergeGroup s t off ps := by
  simp only [mergeGroup, List.map_map]
  refine List.map_congr_left fun p _ => ?_
  by_cases h : p.groupId = s
  · simp [h, Ne.symm hst]
  · simp [h]

/-- Witness for C3's amended theorem at a two-group state. -/
theorem mergeGroup_fully_idempotent_witness :
    ("u" : String) ≠ "v" ∧
    mergeGroup "u" "v" ⟨0, 2, 0⟩ (mergeGroup "u" "v" ⟨0, 2, 0⟩
        [⟨"q1", ⟨1, 1, 1⟩, "u", false⟩, ⟨"q2", ⟨4, 0, 0⟩, "v", false⟩]) =
      mergeGroup "u" "v" ⟨0, 2, 0⟩
        [⟨"q1", ⟨1, 1, 1⟩, "u", false⟩, ⟨"q2", ⟨4, 0, 0⟩, "v", false⟩] :=
  ⟨by simp,
    mergeGroup_fully_idempotent
      [⟨"q1", ⟨1, 1, 1⟩, "u", false⟩, ⟨"q2", ⟨4, 0, 0⟩, "v", false⟩] "u" "v" ⟨0, 2, 0⟩
      (by simp)⟩

/-- C5 counterexample: the client is dragging piece `"a"` of group `"g"`; an
incoming `PIECE_MOVED` for piece `"b"` of the same group `"g"` is applied, not
discarded — the handler only compares the message's piece id with the dragged
piece id, not its group. -/
theorem pieceMovedDuringDrag_counterexample :
    clientPieceMoved (some "a") "b" ⟨5, 5, 5⟩ "g"
        [⟨"a", ⟨0, 0, 0⟩, "g", false⟩, ⟨"b", ⟨0, 0, 0⟩, "g", false⟩] ≠
      [⟨"a", ⟨0, 0, 0⟩, "g", false⟩, ⟨"b", ⟨0, 0, 0⟩, "g", false⟩] := by
  simp [clientPieceMoved, show ("a" : String) ≠ "b" by decide]

/-- C5 amended: during a drag, the client discards an incoming `PIECE_MOVED`
exactly when the message's piece id equals the dragged piece id; a message for
any other piece — including other pieces of the dragged group — is applied
(that piece's position and group id are overwritten, all other pieces kept). -/
theorem pieceMovedDuringDrag_amended :
    (∀ (pid : String) (pos : Vec3) (gid : String) (ps : List PieceState),
      clientPieceMoved (some pid) pid pos gid ps = ps) ∧
    (∀ (d : Option String) (pid : String) (pos : Vec3) (gid : String)
        (ps : List PieceState), d ≠ some pid →
      ((clientPieceMoved d pid pos gid ps).map PieceState.id = ps.map PieceState.id ∧
       ∀ p ∈ clientPieceMoved d pid pos gid ps,
         (p.id = pid → p.position = pos ∧ p.groupId = gid) ∧
         (p.id ≠ pid → p ∈ ps))) := by
  constructor
  · intro pid pos gid ps
    simp [clientPieceMoved]
  · intro d pid pos gid ps hd
    rw [clientPieceMoved, if_neg hd]
    constructor
    · simp only [List.map_map]
      refine List.map_congr_left fun p _ => ?_
      by_cases h : p.id = pid <;> simp [h]
    · intro p hp
      obtain ⟨q, hq, rfl⟩ := List.mem_map.mp hp
      by_cases h : q.id = pid
      · simp [h]
      · simp [h, hq]

/-- Witness for C5's amended theorem: a non-dragged piece id is applied. -/
theorem pieceMovedDuringDrag_amended_witness :
    (some "a" ≠ some "b") ∧
    ((clientPieceMoved (some "a") "b" ⟨7, 0, 0⟩ "g"
        [⟨"b", ⟨1, 2, 3⟩, "g", false⟩]).map PieceState.id =
      [(⟨"b", ⟨1, 2, 3⟩, "g", false⟩ : PieceState)].map PieceState.id ∧
     ∀ p ∈ clientPieceMoved (some "a") "b" ⟨7, 0, 0⟩ "g"
        [⟨"b", ⟨1, 2, 3⟩, "g", false⟩],
       (p.id = "b" → p.position = ⟨7, 0, 0⟩ ∧ p.groupId = "g") ∧
       (p.id ≠ "b" → p ∈ [(⟨"b", ⟨1, 2, 3⟩, "g", false⟩ : PieceState)])) :=
  ⟨by decide,
    pieceMovedDuringDrag_amended.2 (some "a") "b" ⟨7, 0, 0⟩ "g"
      [⟨"b", ⟨1, 2, 3⟩, "g", false⟩] (by decide)⟩

/-- C10 counterexample: a merge whose source group matches no piece is a
complete no-op on the server, but on the client the `GROUP_MERGED` handler
still runs its completion check, so on a single-group unsolved state the state
changes (the piece is marked solved and snapped to the floor). -/
theorem staleSourceMerge_counterexample :
    mergeGroup "zzz" "w" ⟨0, 0, 0⟩ [⟨"a", ⟨0, 5, 0⟩, "a", false⟩] =
        [⟨"a", ⟨0, 5, 0⟩, "a", false⟩] ∧
    clientGroupMerged "zzz" "w" ⟨0, 0, 0⟩ [⟨"a", ⟨0, 5, 0⟩, "a", false⟩] ≠
        [⟨"a", ⟨0, 5, 0⟩, "a", false⟩] ∧
    clientGroupMerged "zzz" "w" ⟨0, 0, 0⟩ [⟨"a", ⟨0, 5, 0⟩, "a", false⟩] =
        [⟨"a", ⟨0, 0, 0⟩, "a", true⟩] := by
  refine ⟨?_, ?_, ?_⟩ <;>
    simp [clientGroupMerged, mergeGroup, snapComplete, distinctGroups,
      show ("a" : String) ≠ "zzz" by decide]

/-- C10 amended: a merge whose source group matches no piece leaves the server
state entirely unchanged; on the client it also leaves every piece unchanged
unless the state already has exactly one distinct group, in which case the
completion snap still fires (every piece marked solved and floored). -/
theorem staleSourceMerge_amended :
    (∀ (s t : String) (off : Vec3) (ps : List PieceState),
      (∀ p ∈ ps, p.groupId ≠ s) → mergeGroup s t off ps = ps) ∧
    (∀ (s t : String) (off : Vec3) (ps : List PieceState),
      (∀ p ∈ ps, p.groupId ≠ s) → distinctGroups ps ≠ 1 →
        clientGroupMerged s t off ps = ps) ∧
    (∀ (s t : String) (off : Vec3) (ps : List PieceState),
      (∀ p ∈ ps, p.groupId ≠ s) → distinctGroups ps = 1 →
        clientGroupMerged s t off ps = snapComplete ps) := by
  refine ⟨fun s t off ps h => mergeGroup_noop_of_no_source s t off ps h, ?_, ?_⟩
  · intro s t off ps h h1
    rw [clientGroupMerged]
    simp only [mergeGroup_noop_of_no_source s t off ps h]
    rw [if_neg h1]
  · intro s t off ps h h1
    rw [clientGroupMerged]
    simp only [mergeGroup_noop_of_no_source s t off ps h]
    rw [if_pos h1]

/-- Witness for C10's amended theorem at concrete states for both client
branches. -/
theorem staleSourceMerge_amended_witness :
    ((∀ p ∈ [(⟨"a", ⟨0, 5, 0⟩, "a", false⟩ : PieceState), ⟨"b", ⟨1, 0, 0⟩, "b", false⟩],
        p.groupId ≠ "zz") ∧
     distinctGroups [(⟨"a", ⟨0, 5, 0⟩, "a", false⟩ : PieceState),
        ⟨"b", ⟨1, 0, 0⟩, "b", false⟩] ≠ 1 ∧
     clientGroupMerged "zz" "w" ⟨1, 1, 1⟩
        [⟨"a", ⟨0, 5, 0⟩, "a", false⟩, ⟨"b", ⟨1, 0, 0⟩, "b", false⟩] =
        [⟨"a", ⟨0, 5, 0⟩, "a", false⟩, ⟨"b", ⟨1, 0, 0⟩, "b", false⟩]) ∧
    ((∀ p ∈ [(⟨"c", ⟨0, 5, 0⟩, "c", false⟩ : PieceState)], p.groupId ≠ "zz") ∧
     distinctGroups [(⟨"c", ⟨0, 5, 0⟩, "c", false⟩ : PieceState)] = 1 ∧
     clientGroupMerged "zz" "w" ⟨1, 1, 1⟩ [⟨"c", ⟨0, 5, 0⟩, "c", false⟩] =
        snapComplete [⟨"c", ⟨0, 5, 0⟩, "c", false⟩]) :=
  ⟨⟨by simp, by simp [distinctGroups],
    staleSourceMerge_amended.2.1 "zz" "w" ⟨1, 1, 1⟩
      [⟨"a", ⟨0, 5, 0⟩, "a", false⟩, ⟨"b", ⟨1, 0, 0⟩, "b", false⟩]
      (by simp) (by simp [distinctGroups])⟩,
   ⟨by simp, by simp [distinctGroups],
    staleSourceMerge_amended.2.2 "zz" "w" ⟨1, 1, 1⟩ [⟨"c", ⟨0, 5, 0⟩, "c", false⟩]
      (by simp) (by simp [distinctGroups])⟩⟩

/-- C6 counterexample: the `GROUP_MERGED` broadcast loop has no sender
exclusion — an open sender connection is among its own merge broadcast
recipients, so the originator does receive an echo of its `MERGE_GROUP`
intent. -/
theorem mergeBroadcast_counterexample :
    (⟨1, 1⟩ : Conn) ∈ mergeBroadcastTargets [⟨1, 1⟩, ⟨2, 1⟩] ⟨1, 1⟩ := by decide

/-- C6 amended: `PIECE_MOVED` deltas go to every open connection except the
originator (the sender is never a recipient), but `GROUP_MERGED` deltas go to
every open connection including the originator. -/
theorem broadcast_amended :
    (∀ (players : List Conn) (sender : Conn),
      sender ∉ moveBroadcastTargets players sender) ∧
    (∀ (players : List Conn) (sender c : Conn),
      c ∈ moveBroadcastTargets players sender ↔
        c ∈ players ∧ c ≠ sender ∧ c.readyState = WebSocketOPEN) ∧
    (∀ (players : List Conn) (sender c : Conn),
      c ∈ mergeBroadcastTargets players sender ↔
        c ∈ players ∧ c.readyState = WebSocketOPEN) := by
  refine ⟨?_, ?_, ?_⟩
  · intro players sender
    simp [moveBroadcastTargets, List.mem_filter]
  · intro players sender c
    simp [moveBroadcastTargets, List.mem_filter, and_assoc]
  · intro players sender c
    simp [mergeBroadcastTargets, List.mem_filter]

/-- Witness for C6's amended theorem at a concrete two-connection session. -/
theorem broadcast_amended_witness :
    (⟨3, 1⟩ : Conn) ∉ moveBroadcastTargets [⟨3, 1⟩, ⟨4, 1⟩] ⟨3, 1⟩ ∧
    ((⟨4, 1⟩ : Conn) ∈ moveBroadcastTargets [⟨3, 1⟩, ⟨4, 1⟩] ⟨3, 1⟩ ↔
      (⟨4, 1⟩ : Conn) ∈ [(⟨3, 1⟩ : Conn), ⟨4, 1⟩] ∧ (⟨4, 1⟩ : Conn) ≠ ⟨3, 1⟩ ∧
        (⟨4, 1⟩ : Conn).readyState = WebSocketOPEN) :=
  ⟨broadcast_amended.1 [⟨3, 1⟩, ⟨4, 1⟩] ⟨3, 1⟩,
    broadcast_amended.2.1 [⟨3, 1⟩, ⟨4, 1⟩] ⟨3, 1⟩ ⟨4, 1⟩⟩

/-- C9: a `MOVE_PIECE` for an unknown piece id is not rejected — a default
`PieceState` with `groupId = pieceId` and `isSolved = false` is appended; for
a known piece id only that piece's position is overwritten, and ids, group
ids, solved flags and all other pieces are untouched. -/
theorem movePiece_lazy_create :
    (∀ (pid : String) (pos : Vec3) (ps : List PieceState),
      (∀ p ∈ ps, p.id ≠ pid) →
        movePiece pid pos ps =
          ps ++ [{ id := pid, position := pos, groupId := pid, isSolved := false }]) ∧
    (∀ (pid : String) (pos : Vec3) (ps : List PieceState),
      (∃ p ∈ ps, p.id = pid) →
        ((movePiece pid pos ps).map PieceState.id = ps.map PieceState.id ∧
         (movePiece pid pos ps).map PieceState.groupId = ps.map PieceState.groupId ∧
         (movePiece pid pos ps).map PieceState.isSolved = ps.map PieceState.isSolved ∧
         (∀ q ∈ movePiece pid pos ps, q.id = pid → q.position = pos) ∧
         (∀ q ∈ ps, q.id ≠ pid → q ∈ movePiece pid pos ps))) := by
  constructor
  · intro pid pos ps h
    have hany : ¬ ps.any (fun p => p.id == pid) = true := by
      simp only [List.any_eq_true, beq_iff_eq]
      rintro ⟨p, hp, hpe⟩
      exact h p hp hpe
    rw [movePiece, if_neg hany]
  · intro pid pos ps h
    have hany : ps.any (fun p => p.id == pid) = true := by
      simp only [List.any_eq_true, beq_iff_eq]
      exact h
    rw [movePiece, if_pos hany]
    refine ⟨?_, ?_, ?_, ?_, ?_⟩
    · simp only [List.map_map]
      refine List.map_congr_left fun p _ => ?_
      by_cases hq : p.id = pid <;> simp [hq]
    · simp only [List.map_map]
      refine List.map_congr_left fun p _ => ?_
      by_cases hq : p.id = pid <;> simp [hq]
    · simp only [List.map_map]
      refine List.map_congr_left fun p _ => ?_
      by_cases hq : p.id = pid <;> simp [hq]
    · intro q hq hqid
      obtain ⟨r, hr, rfl⟩ := List.mem_map.mp hq
      by_cases hrid : r.id = pid
      · simp [hrid]
      · rw [if_neg hrid] at hqid
        exact (hrid hqid).elim
    · intro q hq hqid
      exact List.mem_map.mpr ⟨q, hq, by simp [hqid]⟩

/-- Witness for C9 at concrete states: creation for an unknown id and
position-only overwrite for a known id. -/
theorem movePiece_lazy_create_witness :
    ((∀ p ∈ [(⟨"a", ⟨1, 1, 1⟩, "a", false⟩ : PieceState)], p.id ≠ "b") ∧
     movePiece "b" ⟨2, 2, 2⟩ [⟨"a", ⟨1, 1, 1⟩, "a", false⟩] =
        [⟨"a", ⟨1, 1, 1⟩, "a", false⟩] ++ [⟨"b", ⟨2, 2, 2⟩, "b", false⟩]) ∧
    ((∃ p ∈ [(⟨"a", ⟨1, 1, 1⟩, "a", false⟩ : PieceState)], p.id = "a") ∧
     (movePiece "a" ⟨9, 9, 9⟩ [⟨"a", ⟨1, 1, 1⟩, "a", false⟩]).map PieceState.groupId =
        [(⟨"a", ⟨1, 1, 1⟩, "a", false⟩ : PieceState)].map PieceState.groupId) :=
  ⟨⟨by simp,
    movePiece_lazy_create.1 "b" ⟨2, 2, 2⟩ [⟨"a", ⟨1, 1, 1⟩, "a", false⟩] (by simp)⟩,
   ⟨by simp,
    (movePiece_lazy_create.2 "a" ⟨9, 9, 9⟩ [⟨"a", ⟨1, 1, 1⟩, "a", false⟩]
      (by simp)).2.1⟩⟩

/-- C4: when a replayed merge leaves exactly one distinct group, every piece
is marked solved with its vertical coordinate snapped to the floor value `0`
(both in the `GROUP_MERGED` handler and, for region-covered states, in the
`dragEnd` merge branch); the snap transition is idempotent; and completeness
(every piece solved) is one-way — preserved by every client operation. -/
theorem completion_transition :
    (∀ (s t : String) (off : Vec3) (ps : List PieceState),
      distinctGroups (clientGroupMerged s t off ps) = 1 →
        ∀ p ∈ clientGroupMerged s t off ps, p.isSolved = true ∧ p.position.y = 0) ∧
    (∀ ps : List PieceState, snapComplete (snapComplete ps) = snapComplete ps) ∧
    (∀ (regions : List Region) (a g : String) (off : Vec3) (ps : List PieceState),
      (∀ p ∈ ps, ∃ r ∈ regions, r.id = p.id) →
      distinctGroups (dragEndApply regions a g off ps) = 1 →
        ∀ p ∈ dragEndApply regions a g off ps, p.isSolved = true ∧ p.position.y = 0) ∧
    (∀ (s t : String) (off : Vec3) (ps : List PieceState),
      (∀ p ∈ ps, p.isSolved = true) →
        ∀ p ∈ clientGroupMerged s t off ps, p.isSolved = true) ∧
    (∀ (d : Option String) (pid : String) (pos : Vec3) (gid : String)
        (ps : List PieceState),
      (∀ p ∈ ps, p.isSolved = true) →
        ∀ p ∈ clientPieceMoved d pid pos gid ps, p.isSolved = true) ∧
    (∀ (regions : List Region) (a : String) (delta : Vec3) (ps : List PieceState),
      (∀ p ∈ ps, p.isSolved = true) →
        ∀ p ∈ (dragMove regions a delta ps).1, p.isSolved = true) ∧
    (∀ (regions : List Region) (a g : String) (off : Vec3) (ps : List PieceState),
      (∀ p ∈ ps, p.isSolved = true) →
        ∀ p ∈ dragEndApply regions a g off ps, p.isSolved = true) := by
  refine ⟨?_, ?_, ?_, ?_, ?_, ?_, ?_⟩
  · intro s t off ps hone p hp
    by_cases hm : distinctGroups (mergeGroup s t off ps) = 1
    · rw [clientGroupMerged] at hp
      simp only [hm, if_true] at hp
      rw [snapComplete] at hp
      obtain ⟨q, _, rfl⟩ := List.mem_map.mp hp
      exact ⟨rfl, rfl⟩
    · rw [clientGroupMerged] at hone
      simp only [hm, if_false] at hone
  · intro ps
    simp only [snapComplete, List.map_map]
    rfl
  · intro regions a g off ps hcov hone p hp
    by_cases hm : distinctGroups (mergeGroup a g off ps) = 1
    · rw [dragEndApply] at hp
      simp only [hm, if_true] at hp
      obtain ⟨q, hq, rfl⟩ := List.mem_map.mp hp
      have hqid : ∃ r ∈ regions, r.id = q.id := by
        rw [mergeGroup] at hq
        obtain ⟨q0, hq0, rfl⟩ := List.mem_map.mp hq
        obtain ⟨r, hr, hrid⟩ := hcov q0 hq0
        by_cases hg : q0.groupId = a <;> exact ⟨r, hr, by simp [hg, hrid]⟩
      have hany : regions.any (fun r => r.id == q.id) = true := by
        simp only [List.any_eq_true, beq_iff_eq]
        exact hqid
      rw [if_pos hany]
      exact ⟨rfl, rfl⟩
    · rw [dragEndApply] at hone
      simp only [hm, if_false] at hone
  · intro s t off ps h p hp
    by_cases hm : distinctGroups (mergeGroup s t off ps) = 1
    · rw [clientGroupMerged] at hp
      simp only [hm, if_true] at hp
      rw [snapComplete] at hp
      obtain ⟨q, _, rfl⟩ := List.mem_map.mp hp
      rfl
    · rw [clientGroupMerged] at hp
      simp only [hm, if_false] at hp
      exact allSolved_mergeGroup s t off ps h p hp
  · intro d pid pos gid ps h p hp
    rw [clientPieceMoved] at hp
    by_cases hd : d = some pid
    · rw [if_pos hd] at hp
      exact h p hp
    · rw [if_neg hd] at hp
      obtain ⟨q, hq, rfl⟩ := List.mem_map.mp hp
      by_cases hqid : q.id = pid <;> simp [hqid, h q hq]
  · intro regions a delta ps h p hp
    rw [dragMove] at hp
    obtain ⟨q, hq, rfl⟩ := List.mem_map.mp hp
    by_cases hg : q.groupId = a <;> simp [hg, h q hq]
  · intro regions a g off ps h p hp
    by_cases hm : distinctGroups (mergeGroup a g off ps) = 1
    · rw [dragEndApply] at hp
      simp only [hm, if_true] at hp
      obtain ⟨q, hq, rfl⟩ := List.mem_map.mp hp
      have hq' : q.isSolved = true := allSolved_mergeGroup a g off ps h q hq
      by_cases hr : regions.any (fun r => r.id == q.id) = true <;> simp [hr, hq']
    · rw [dragEndApply] at hp
      simp only [hm, if_false] at hp
      exact allSolved_mergeGroup a g off ps h p hp

/-- Witness for C4 at concrete completing and already-complete states. -/
theorem completion_transition_witness :
    (distinctGroups (clientGroupMerged "x" "y" ⟨0, 0, 0⟩
        [⟨"a", ⟨0, 5, 0⟩, "x", false⟩, ⟨"b", ⟨3, 2, 0⟩, "y", false⟩]) = 1 ∧
     ∀ p ∈ clientGroupMerged "x" "y" ⟨0, 0, 0⟩
        [⟨"a", ⟨0, 5, 0⟩, "x", false⟩, ⟨"b", ⟨3, 2, 0⟩, "y", false⟩],
       p.isSolved = true ∧ p.position.y = 0) ∧
    ((∀ p ∈ [(⟨"a", ⟨0, 0, 0⟩, "y", true⟩ : PieceState)], p.isSolved = true) ∧
     ∀ p ∈ clientPieceMoved none "a" ⟨1, 2, 3⟩ "y" [⟨"a", ⟨0, 0, 0⟩, "y", true⟩],
       p.isSolved = true) :=
  ⟨⟨by simp [clientGroupMerged, mergeGroup, snapComplete, distinctGroups,
      show ("x" : String) ≠ "y" by decide, Vec3.add],
    completion_transition.1 "x" "y" ⟨0, 0, 0⟩
      [⟨"a", ⟨0, 5, 0⟩, "x", false⟩, ⟨"b", ⟨3, 2, 0⟩, "y", false⟩]
      (by simp [clientGroupMerged, mergeGroup, snapComplete, distinctGroups,
        show ("x" : String) ≠ "y" by decide, Vec3.add])⟩,
   ⟨by simp,
    completion_transition.2.2.2.2.1 none "a" ⟨1, 2, 3⟩ "y"
      [⟨"a", ⟨0, 0, 0⟩, "y", true⟩] (by simp)⟩⟩

/-- The inner snap loop returns the group of the first target in list order
whose pair with `mover` qualifies. -/
lemma findSnapInner_eq (regions : List Region) (rm : Region) (mover : PieceState)
    (hm : regions.find? (fun r => r.id == mover.id) = some rm)
    (targets : List PieceState) :
    findSnapInner regions rm mover targets =
      (targets.find? (fun t => pairQualifies regions mover t)).map PieceState.groupId := by
  induction targets with
  | nil => simp [findSnapInner]
  | cons target rest ih =>
    rw [findSnapInner]
    cases hrt : regions.find? (fun r => r.id == target.id) with
    | none =>
      have hpq : pairQualifies regions mover target = false := by
        rw [pairQualifies]
        simp only [hm, hrt]
      simp only [hrt]
      rw [List.find?_cons_of_neg _ (by simp [hpq])]
      exact ih
    | some rt =>
      simp only [hrt]
      by_cases hlt : snapErrSq rm rt mover target < SNAP_DISTANCE ^ 2
      · have hpq : pairQualifies regions mover target = true := by
          rw [pairQualifies]
          simp only [hm, hrt]
          simp [hlt]
        rw [if_pos hlt, List.find?_cons_of_pos _ hpq]
        rfl
      · have hpq : pairQualifies regions mover target = false := by
          rw [pairQualifies]
          simp only [hm, hrt]
          simp [hlt]
        rw [if_neg hlt, List.find?_cons_of_neg _ (by simp [hpq])]
        exact ih

/-- The two nested snap loops return the target group of the first qualifying
pair in the order mover pieces, then target pieces. -/
lemma findSnapCandidate_eq (regions : List Region) (movers targets : List PieceState) :
    findSnapCandidate regions movers targets =
      ((movers.flatMap (fun m => targets.map (fun t => (m, t)))).find?
        (fun mt => pairQualifies regions mt.1 mt.2)).map (fun mt => mt.2.groupId) := by
  induction movers with
  | nil => simp [findSnapCandidate]
  | cons m rest ih =>
    rw [findSnapCandidate]
    cases hm : regions.find? (fun r => r.id == m.id) with
    | none =>
      simp only [hm]
      have hnone : (targets.map (fun t => (m, t))).find?
          (fun mt => pairQualifies regions mt.1 mt.2) = none := by
        rw [List.find?_eq_none]
        intro mt hmt
        obtain ⟨t, _, rfl⟩ := List.mem_map.mp hmt
        simp [pairQualifies, hm]
      rw [List.flatMap_cons, List.find?_append, hnone, Option.none_or]
      exact ih
    | some rm =>
      simp only [hm]
      rw [findSnapInner_eq regions rm m hm targets]
      rw [List.flatMap_cons, List.find?_append, List.find?_map]
      have hcomp : ((fun mt => pairQualifies regions mt.1 mt.2) ∘
          fun t => ((m : PieceState), t)) = fun t => pairQualifies regions m t := rfl
      rw [hcomp]
      cases hf : targets.find? (fun t => pairQualifies regions m t) with
      | none =>
        simp only [hf, Option.map_none', Option.none_or]
        exact ih
      | some t0 =>
        simp only [hf, Option.map_some']
        rfl

/-- C7: a mover/target pair is flagged exactly when the Euclidean distance
between the pair's current XZ offset and its ideal region-centroid offset is
strictly below the 4.0 threshold; the candidate returned by the scan is the
target group of the first qualifying pair in mover-then-target iteration
order; and the spec's two concrete examples — ideal offset (2,0) with placed
offset (2.1,0) flagged, placed offset (10,0) not. -/
theorem snap_detection :
    (∀ (regions : List Region) (rm rt : Region) (m t : PieceState),
      regions.find? (fun r => r.id == m.id) = some rm →
      regions.find? (fun r => r.id == t.id) = some rt →
      (pairQualifies regions m t = true ↔
        Real.sqrt ((snapErrSq rm rt m t : ℚ) : ℝ) < ((SNAP_DISTANCE : ℚ) : ℝ))) ∧
    (∀ (regions : List Region) (movers targets : List PieceState),
      findSnapCandidate regions movers targets =
        ((movers.flatMap (fun m => targets.map (fun t => (m, t)))).find?
          (fun mt => pairQualifies regions mt.1 mt.2)).map (fun mt => mt.2.groupId)) ∧
    pairQualifies [⟨"m", 2, 0⟩, ⟨"t", 0, 0⟩]
      ⟨"m", ⟨21 / 10, 0, 0⟩, "gm", false⟩ ⟨"t", ⟨0, 0, 0⟩, "gt", false⟩ = true ∧
    pairQualifies [⟨"m", 2, 0⟩, ⟨"t", 0, 0⟩]
      ⟨"m", ⟨10, 0, 0⟩, "gm", false⟩ ⟨"t", ⟨0, 0, 0⟩, "gt", false⟩ = false ∧
    findSnapCandidate [⟨"m", 2, 0⟩, ⟨"t", 0, 0⟩]
      [⟨"m", ⟨21 / 10, 0, 0⟩, "gm", false⟩] [⟨"t", ⟨0, 0, 0⟩, "gt", false⟩] =
      some "gt" := by
  refine ⟨?_, findSnapCandidate_eq, ?_, ?_, ?_⟩
  · intro regions rm rt m t hm ht
    rw [pairQualifies]
    simp only [hm, ht, decide_eq_true_eq]
    have h4 : (0 : ℝ) < ((SNAP_DISTANCE : ℚ) : ℝ) := by norm_num [SNAP_DISTANCE]
    rw [Real.sqrt_lt' h4]
    constructor <;> intro h <;> exact_mod_cast h
  · norm_num [pairQualifies, snapErrSq, SNAP_DISTANCE, List.find?,
      show ("m" == "t") = false from rfl]
  · norm_num [pairQualifies, snapErrSq, SNAP_DISTANCE, List.find?,
      show ("m" == "t") = false from rfl]
  · norm_num [findSnapCandidate, findSnapInner, pairQualifies, snapErrSq,
      SNAP_DISTANCE, List.find?, show ("m" == "t") = false from rfl]

/-- Witness for C7's threshold equivalence at a concrete region list. -/
theorem snap_detection_witness :
    List.find? (fun r => r.id == "m") [(⟨"m", 2, 0⟩ : Region), ⟨"t", 0, 0⟩] =
        some ⟨"m", 2, 0⟩ ∧
    List.find? (fun r => r.id == "t") [(⟨"m", 2, 0⟩ : Region), ⟨"t", 0, 0⟩] =
        some ⟨"t", 0, 0⟩ ∧
    (pairQualifies [⟨"m", 2, 0⟩, ⟨"t", 0, 0⟩]
        ⟨"m", ⟨21 / 10, 0, 0⟩, "gm", false⟩ ⟨"t", ⟨0, 0, 0⟩, "gt", false⟩ = true ↔
      Real.sqrt ((snapErrSq ⟨"m", 2, 0⟩ ⟨"t", 0, 0⟩
          ⟨"m", ⟨21 / 10, 0, 0⟩, "gm", false⟩ ⟨"t", ⟨0, 0, 0⟩, "gt", false⟩ : ℚ) : ℝ) <
        ((SNAP_DISTANCE : ℚ) : ℝ)) :=
  ⟨by simp [List.find?], by simp [List.find?],
    snap_detection.1 [⟨"m", 2, 0⟩, ⟨"t", 0, 0⟩] ⟨"m", 2, 0⟩ ⟨"t", 0, 0⟩
      ⟨"m", ⟨21 / 10, 0, 0⟩, "gm", false⟩ ⟨"t", ⟨0, 0, 0⟩, "gt", false⟩
      (by simp [List.find?]) (by simp [List.find?])⟩

/-- C8: when the server-supplied record is non-empty, the initial client
mirror holds, for each region, exactly the server-supplied `PieceState` for
that region's id whenever one exists; only regions with no server entry get a
scattered spawn position, and that position is `scatterPosition` — a function
of the scatter seed and the region index alone. -/
theorem setPuzzleRegions_rejoin (sinF : ℚ → ℚ) (regions : List Region)
    (seed : List ℚ) (server : List PieceState) (hne : server ≠ [])
    (i : ℕ) (r : Region) (hi : regions.get? i = some r) :
    (setPuzzleRegions sinF regions seed server).get? i =
      some (match server.find? (fun p => p.id == r.id) with
            | some st => st
            | none => { id := r.id, groupId := r.id,
                        position := scatterPosition sinF seed i, isSolved := false }) := by
  have hne' : server.isEmpty = false := List.isEmpty_eq_false.mpr hne
  rw [setPuzzleRegions]
  simp only [hne', Bool.not_false, if_true]
  rw [List.get?_map, List.enum_get?, hi]
  rfl

/-- Witness for C8: a rejoining client with one region and a matching server
entry receives exactly the server entry. -/
theorem setPuzzleRegions_rejoin_witness :
    ([(⟨"a", ⟨9, 9, 9⟩, "a", false⟩ : PieceState)] ≠ []) ∧
    ([(⟨"a", 0, 0⟩ : Region)].get? 0 = some ⟨"a", 0, 0⟩) ∧
    (setPuzzleRegions (fun _ => 0) [⟨"a", 0, 0⟩] [5]
        [⟨"a", ⟨9, 9, 9⟩, "a", false⟩]).get? 0 =
      some (match [(⟨"a", ⟨9, 9, 9⟩, "a", false⟩ : PieceState)].find?
              (fun p => p.id == ("a" : String)) with
            | some st => st
            | none => { id := "a", groupId := "a",
                        position := scatterPosition (fun _ => 0) [5] 0,
                        isSolved := false }) :=
  ⟨by simp, rfl,
    setPuzzleRegions_rejoin (fun _ => 0) [⟨"a", 0, 0⟩] [5]
      [⟨"a", ⟨9, 9, 9⟩, "a", false⟩] (by simp) 0 ⟨"a", 0, 0⟩ rfl⟩

end Canvas
